import Mathlib

/-!
Verification development for the probe-and-emit stage of the streaming full
outer equi-join operator
(`crates/polars-pipe/src/executors/sinks/joins/generic_probe_outer.rs`,
`GenericFullOuterJoinProbe`).

The Rust code is shallowly embedded: machine integers become `Nat`, the
partitioned hash table becomes a list of shards of entries, atomic tracker
booleans become plain `Bool` fields (the operator owns the table in the
model; the driver-provided happens-before edge makes this faithful for the
single-operator claims below), fallible or panicking paths return `Option`.
Components of the repository that are not part of this file's source
(`RowValues::get_values`, `hash_rows`, `compare_fn`, `PartitionedMap`
raw-entry lookup, `TakeChunked`, `_finish_join`, `_coalesce_full_join`) are
modelled from the specification and carry a doc comment saying so.
-/

namespace GenericProbeOuter

/-- `ChunkId`: address of a row of the non-rechunked left dataframe, either
the reserved null sentinel (`ChunkId::null()`) or a pair
(chunk index, row inside that chunk). -/
inductive ChunkId where
  | null : ChunkId
  | id (chunk : Nat) (row : Nat) : ChunkId
deriving DecidableEq

/-- `IdxSize`: right-row indices. -/
abbrev IdxSize := Nat

/-- One entry of the partitioned hash table: the identity of the key
(stored hash and encoded key bytes, which in the Rust code live behind a
`Key` pointing into `materialized_join_cols`), the `Vec<ChunkId>` of left
rows with this key, and the match tracker (an `AtomicBool` in the source,
a plain `Bool` here). -/
structure Entry where
  keyHash : Nat
  keyBytes : List Nat
  leftIds : List ChunkId
  tracker : Bool
deriving DecidableEq

/-- A column of a (re-chunked) dataframe: name, dtype tag and the cell
values, `none` meaning a null cell. -/
structure Column where
  name : String
  dtype : Nat
  values : List (Option Nat)
deriving DecidableEq

/-- A dataframe: explicit height (the Rust `DataFrame` stores the height
separately, which matters when there are zero columns) plus columns. -/
structure DataFrame where
  height : Nat
  columns : List Column
deriving DecidableEq

/-- `DataChunk`: a dataframe tagged with its chunk identifier. -/
structure DataChunk where
  chunkIndex : Nat
  data : DataFrame
deriving DecidableEq

/-- A column of the non-rechunked left dataframe `df_a`: values are stored
per chunk, addressed by `ChunkId`. -/
structure ChunkedColumn where
  name : String
  dtype : Nat
  chunks : List (List (Option Nat))
deriving DecidableEq

/-- The left dataframe `df_a`: all build chunks stacked, not rechunked. -/
structure ChunkedFrame where
  columns : List ChunkedColumn
deriving DecidableEq

/-- `chunk.data.clear()`: an empty clone keeping schema, dropping rows. -/
def DataFrame.clear (df : DataFrame) : DataFrame :=
  ⟨0, df.columns.map fun c => { c with values := [] }⟩

/-- `Column::full_null(name, size, dtype)`. -/
def Column.fullNull (name : String) (dtype : Nat) (size : Nat) : Column :=
  ⟨name, dtype, List.replicate size none⟩

/-- Modelled from the spec: `take_opt_chunked_unchecked` (`TakeChunked`, a
collaborator outside this source file). Two-level gather from the
non-rechunked left frame; `ChunkId.null` produces a fully-null row. An
out-of-range id (undefined behavior in the unchecked Rust call) is modelled
as a null cell. -/
def takeOptChunked (l : ChunkedFrame) (ids : List ChunkId) : DataFrame :=
  ⟨ids.length, l.columns.map fun c =>
    ⟨c.name, c.dtype, ids.map fun cid =>
      match cid with
      | ChunkId.null => none
      | ChunkId.id ci ri => (((c.chunks.get? ci).getD []).get? ri).join⟩⟩

/-- Modelled from the spec: `take_chunked_unchecked` (flush-side gather,
ids contain no null sentinel there); same two-level gather. -/
def takeChunked (l : ChunkedFrame) (ids : List ChunkId) : DataFrame :=
  takeOptChunked l ids

/-- Modelled from the spec: `take_unchecked_impl` on the right batch —
positional gather of rows `idxs` from `df`. -/
def takeIdx (df : DataFrame) (idxs : List IdxSize) : DataFrame :=
  ⟨idxs.length, df.columns.map fun c =>
    ⟨c.name, c.dtype, idxs.map fun i => (c.values.get? i).join⟩⟩

/-- Per-worker operator state, translated field by field from
`GenericFullOuterJoinProbe`. `row_values`, `materialized_join_cols` and the
hasher are external collaborators: key encoding is an input of
`executeOuter`, key bytes live in `Entry.keyBytes`, and the seeded hasher
is the function field `hb`. The amortized `hashes` buffer is not modelled
(its reuse is invisible to the claims). -/
structure Operator where
  dfA : ChunkedFrame
  dfBFlushDummy : Option DataFrame
  suffix : String
  hb : List Nat → Nat
  ht : List (List Entry)
  joinTuplesA : List ChunkId
  joinTuplesB : List IdxSize
  swapped : Bool
  outputNames : Option (List String)
  nullsEqual : Bool
  coalesce : Bool
  threadNo : Nat
  keyNamesLeft : List String
  keyNamesRight : List String

/-- Does a stored entry match probe hash `h` and probe key bytes `row`?
This is `compare_fn` (equal stored hash, then equal key bytes); the byte
comparison against `materialized_join_cols` is modelled from the spec as
comparison with `Entry.keyBytes`. -/
def entryMatches (h : Nat) (row : List Nat) (e : Entry) : Bool :=
  e.keyHash == h && e.keyBytes == row

/-- Modelled from the spec: `hash_tables.raw_entry(h).from_hash(h, ...)` —
shard membership is `hash mod S`, then the first entry of that shard with
equal stored hash and equal key bytes. -/
def rawEntry (ht : List (List Entry)) (h : Nat) (row : List Nat) : Option Entry :=
  ((ht.get? (h % ht.length)).getD []).find? (entryMatches h row)

/-- Set the tracker of the first entry satisfying `p` (the effect of
`tracker.get_tracker().store(true, ...)` on the entry that the raw-entry
lookup returned). -/
def markFirst (p : Entry → Bool) : List Entry → List Entry
  | [] => []
  | e :: es => if p e then { e with tracker := true } :: es else e :: markFirst p es

/-- The whole-table effect of storing `true` into the tracker of the entry
found for `(h, row)`. -/
def markMatched (ht : List (List Entry)) (h : Nat) (row : List Nat) :
    List (List Entry) :=
  ht.set (h % ht.length)
    (markFirst (entryMatches h row) ((ht.get? (h % ht.length)).getD []))

/-- The tracker of the entry the lookup for `(h, row)` would return. -/
def trackerOf (ht : List (List Entry)) (h : Nat) (row : List Nat) : Option Bool :=
  (rawEntry ht h row).map (fun e => e.tracker)

/-- The mutable state threaded through `match_outer`: the table (for the
tracker stores) and the two tuple buffers. -/
structure ProbeState where
  ht : List (List Entry)
  a : List ChunkId
  b : List IdxSize

/-- One probed row: `(i, (h, row))` exactly as produced by the enumerated
iterators in `execute_outer`. -/
abbrev Probe := Nat × Nat × List Nat

/-- One iteration of the loop body of `match_outer`. -/
def matchOuterStep (s : ProbeState) (p : Probe) : ProbeState :=
  match rawEntry s.ht p.2.1 p.2.2 with
  | some e =>
      { ht := markMatched s.ht p.2.1 p.2.2,
        a := s.a ++ e.leftIds,
        b := s.b ++ List.replicate e.leftIds.length p.1 }
  | none =>
      { ht := s.ht, a := s.a ++ [ChunkId.null], b := s.b ++ [p.1] }

/-- `match_outer`: fold the loop body over the probe iterator. -/
def matchOuter (s : ProbeState) (l : List Probe) : ProbeState :=
  l.foldl matchOuterStep s

/-- The probe iterator built in `execute_outer`: hashes zipped with either
`rows.values_iter()` (when `nulls_equal` or the batch has no null keys) or
`rows.iter()` filtered to the present keys, enumerated. `rows` is the key
encoder's output (`RowValues::get_values`, an external collaborator
modelled as an input): `rows[i] = none` iff some key column is null at
row `i`; `values_iter` yields the underlying bytes of every slot, modelled
as `getD []`. -/
def probesOf (op : Operator) (rows : List (Option (List Nat))) : List Probe :=
  let hashes := rows.map fun r => op.hb (r.getD [])
  if op.nullsEqual || rows.countP (fun r => r.isNone) == 0 then
    (hashes.zip (rows.map fun r => r.getD [])).enum
  else
    ((hashes.zip rows).enum).filterMap fun p =>
      p.2.2.map fun row => (p.1, p.2.1, row)

/-- Modelled from the spec: `_finish_join` (polars-ops, outside this
source file) — concatenate the columns, appending the configured suffix to
right-side names that collide with a left-side name. -/
def finishJoinFrames (l r : DataFrame) (suffix : String) : DataFrame :=
  let lnames := l.columns.map fun c => c.name
  ⟨l.height, l.columns ++ r.columns.map fun c =>
    if lnames.contains c.name then { c with name := c.name ++ suffix } else c⟩

/-- The local `inner` function of `finish_join`: swap if `swapped`; on the
first invocation run `_finish_join` and cache the resulting names; on later
invocations extend the left columns with the right columns and rename them
positionally by zipping with the cached names (columns beyond the cached
list keep their names, exactly as `iter_mut().zip(names)` does). Returns
the frame and the new `output_names`. -/
def innerFinish (ldf rdf : DataFrame) (suffix : String) (swapped : Bool)
    (outputNames : Option (List String)) : DataFrame × Option (List String) :=
  let l := if swapped then rdf else ldf
  let r := if swapped then ldf else rdf
  match outputNames with
  | none =>
      let out := finishJoinFrames l r suffix
      (out, some (out.columns.map fun c => c.name))
  | some names =>
      let cols := l.columns ++ r.columns
      (⟨l.height,
        (cols.zip names).map (fun p => { p.1 with name := p.2 }) ++
          cols.drop names.length⟩,
       some names)

/-- Modelled from the spec: one key pair of `_coalesce_full_join` — merge
the left key column with the right key column (suffixed when its name
collides with a left-frame name) into one column that keeps the left value
when present and falls back to the right value, and drop the right key
column. -/
def coalesceStep (suffix : String) (dfLeft : DataFrame) (acc : DataFrame)
    (p : String × String) : DataFrame :=
  let rname := if dfLeft.columns.any (fun c => c.name == p.2) then
      p.2 ++ suffix else p.2
  let rvals := ((acc.columns.find? (fun c => c.name == rname)).map
      (fun c => c.values)).getD []
  ⟨acc.height,
    (acc.columns.filter (fun c => c.name != rname)).map fun c =>
      if c.name == p.1 then
        { c with values :=
            (c.values.zip rvals).map fun q => q.1.orElse (fun _ => q.2) }
      else c⟩

/-- Modelled from the spec: `_coalesce_full_join` (polars-ops, outside
this source file) — fold the per-pair coalescing over the configured key
pairs. -/
def coalesceFullJoin (out : DataFrame) (keysLeft keysRight : List String)
    (suffix : String) (dfLeft : DataFrame) : DataFrame :=
  (keysLeft.zip keysRight).foldl (coalesceStep suffix dfLeft) out

/-- `finish_join`: run `inner` (updating the cached `output_names`), then,
when `coalesce` is set, `_coalesce_full_join` against the original left
frame. -/
def finishJoin (op : Operator) (ldf rdf : DataFrame) : Operator × DataFrame :=
  ({ op with
      outputNames := (innerFinish ldf rdf op.suffix op.swapped op.outputNames).2 },
   if op.coalesce then
     coalesceFullJoin (innerFinish ldf rdf op.suffix op.swapped op.outputNames).1
       op.keyNamesLeft op.keyNamesRight op.suffix ldf
   else
     (innerFinish ldf rdf op.suffix op.swapped op.outputNames).1)

/-- `execute_outer`: clear the tuple buffers (the model starts the probe
state from empty buffers), capture `df_b_flush_dummy` from an empty clone
of the batch if unset, hash and probe the rows, gather both sides, finish
the join, and return the output under the input chunk's identifier. -/
def executeOuter (op : Operator) (chunk : DataChunk)
    (rows : List (Option (List Nat))) : Operator × DataChunk :=
  let s := matchOuter ⟨op.ht, [], []⟩ (probesOf op rows)
  let op1 : Operator :=
    { op with
      dfBFlushDummy :=
        if op.dfBFlushDummy.isNone then some chunk.data.clear
        else op.dfBFlushDummy,
      ht := s.ht, joinTuplesA := s.a, joinTuplesB := s.b }
  ((finishJoin op1 (takeOptChunked op.dfA s.a) (takeIdx chunk.data s.b)).1,
   { chunk with
      data := (finishJoin op1 (takeOptChunked op.dfA s.a) (takeIdx chunk.data s.b)).2 })

/-- The shard scan of `execute_flush`: for every shard index `i` with
`i % n == thread_no` (`n` the number of shards), append the left ids of
every entry whose tracker reads `false`, into the cleared
`join_tuples_a`. -/
def flushIds (ht : List (List Entry)) (threadNo : Nat) : List ChunkId :=
  ht.enum.foldl
    (fun acc p =>
      if p.1 % ht.length == threadNo then
        p.2.foldl
          (fun acc2 e => if !e.tracker then acc2 ++ e.leftIds else acc2) acc
      else acc)
    []

/-- The all-null right frame built during flush from `df_b_flush_dummy`:
same columns (name and dtype, in order), height `size`, every value
null. -/
def flushRightFrame (dummy : DataFrame) (size : Nat) : DataFrame :=
  ⟨size, dummy.columns.map fun c => Column.fullNull c.name c.dtype size⟩

/-- `execute_flush`: scan the owned shards, gather the unmatched left
rows, pair them with an all-null right frame shaped like the flush dummy,
finish the join and emit under chunk identifier `0`. The
`df_b_flush_dummy.as_ref().unwrap()` panic is modelled as `none`. -/
def executeFlush (op : Operator) : Option (Operator × DataChunk) :=
  let ids := flushIds op.ht op.threadNo
  let leftDf := takeChunked op.dfA ids
  match op.dfBFlushDummy with
  | none => none
  | some dummy =>
      let rightDf := flushRightFrame dummy leftDf.height
      some ((finishJoin { op with joinTuplesA := ids } leftDf rightDf).1,
        ⟨0, (finishJoin { op with joinTuplesA := ids } leftDf rightDf).2⟩)

/-- `must_flush`: `df_b_flush_dummy.is_some()`. -/
def mustFlush (op : Operator) : Bool :=
  op.dfBFlushDummy.isSome

/-- `split(thread_no)`: clone the operator and overwrite `thread_no`. -/
def splitOp (op : Operator) (threadNo : Nat) : Operator :=
  { op with threadNo := threadNo }

/-- `GenericFullOuterJoinProbe::new` (external-collaborator arguments —
key expressions, materialized key columns, the amortized hash buffer —
are represented through `hb`, `Entry.keyBytes` and nothing,
respectively). -/
def newOperator (dfA : ChunkedFrame) (suffix : String) (hb : List Nat → Nat)
    (ht : List (List Entry)) (swapped nullsEqual coalesce : Bool)
    (keyNamesLeft keyNamesRight : List String) : Operator :=
  { dfA := dfA
    dfBFlushDummy := none
    suffix := suffix
    hb := hb
    ht := ht
    joinTuplesA := []
    joinTuplesB := []
    swapped := swapped
    outputNames := none
    nullsEqual := nullsEqual
    coalesce := coalesce
    threadNo := 0
    keyNamesLeft := keyNamesLeft
    keyNamesRight := keyNamesRight }

/-- A sequence of `execute` calls on one operator instance. -/
def runBatches (op : Operator)
    (batches : List (DataChunk × List (Option (List Nat)))) : Operator :=
  batches.foldl (fun o b => (executeOuter o b.1 b.2).1) op

/-- The chunk ids appended to `join_tuples_a` for one probed row. -/
def perRowA (ht : List (List Entry)) (p : Probe) : List ChunkId :=
  match rawEntry ht p.2.1 p.2.2 with
  | some e => e.leftIds
  | none => [ChunkId.null]

/-- The right indices appended to `join_tuples_b` for one probed row. -/
def perRowB (ht : List (List Entry)) (p : Probe) : List IdxSize :=
  match rawEntry ht p.2.1 p.2.2 with
  | some e => List.replicate e.leftIds.length p.1
  | none => [p.1]

/-- The `(left id, right index)` pairs produced for one probed row. -/
def perRowPairs (ht : List (List Entry)) (p : Probe) : List (ChunkId × IdxSize) :=
  match rawEntry ht p.2.1 p.2.2 with
  | some e => e.leftIds.map fun c => (c, p.1)
  | none => [(ChunkId.null, p.1)]

/-- The encoded key bytes the probe loop uses for row `i`. -/
def keyAt (rows : List (Option (List Nat))) (i : Nat) : List Nat :=
  ((rows.get? i).getD none).getD []

/-- All left ids stored anywhere in the hash index. -/
def allLeftIds (ht : List (List Entry)) : List ChunkId :=
  ht.flatMap fun shard => shard.flatMap fun e => e.leftIds

/-- The left ids of every entry whose tracker reads `false`, over all
shards. -/
def unmatchedLeftIds (ht : List (List Entry)) : List ChunkId :=
  ht.flatMap fun shard =>
    (shard.filter fun e => !e.tracker).flatMap fun e => e.leftIds

/-- Sample entry: key hash 7, key bytes `[1]`, two left rows. -/
def sampleEntry : Entry :=
  ⟨7, [1], [ChunkId.id 0 0, ChunkId.id 0 1], false⟩

/-- Sample one-shard hash index. -/
def sampleHt : List (List Entry) := [[sampleEntry]]

/-- Sample initial probe state over `sampleHt` with cleared buffers. -/
def sampleState : ProbeState := ⟨sampleHt, [], []⟩

/-- Sample probe iterator: row 0 hits `sampleEntry`, row 1 misses. -/
def sampleProbes : List Probe := [(0, 7, [1]), (1, 8, [2])]

/-- Sample two-shard hash index with globally distinct left ids and one
already-matched entry. -/
def sampleHt2 : List (List Entry) :=
  [[⟨0, [5], [ChunkId.id 0 0], false⟩, ⟨2, [6], [ChunkId.id 0 1], true⟩],
   [⟨1, [7], [ChunkId.id 1 0], false⟩]]

/-- Sample operator probing `sampleHt` with `nulls_equal = false` and a
hasher sending every key to 7. -/
def probeOp : Operator :=
  { dfA := ⟨[]⟩
    dfBFlushDummy := none
    suffix := "_right"
    hb := fun _ => 7
    ht := sampleHt
    joinTuplesA := []
    joinTuplesB := []
    swapped := false
    outputNames := none
    nullsEqual := false
    coalesce := false
    threadNo := 0
    keyNamesLeft := []
    keyNamesRight := [] }

/-- Sample right batch of height 1 carrying chunk identifier 3. -/
def sampleChunk : DataChunk := ⟨3, ⟨1, [⟨"w", 0, [some 10]⟩]⟩⟩

/-- An operator that has already processed a batch (its flush dummy is
captured), obtained by running `execute` once. -/
def streamedOp : Operator :=
  (executeOuter probeOp sampleChunk [some [1]]).1

/-- Sample coalescing operator: one key pair `k`/`k`, suffix `_r`. -/
def coalesceOp : Operator :=
  { probeOp with
    coalesce := true
    suffix := "_r"
    keyNamesLeft := ["k"]
    keyNamesRight := ["k"] }

/-- Sample non-coalescing operator with the names of the first join of
`coalesceOp`'s shape already cached. -/
def cachedOp : Operator :=
  { probeOp with suffix := "_r", outputNames := some ["k", "k_r"] }

/-- Sample left frame with single key column `k`. -/
def sampleLeft : DataFrame := ⟨1, [⟨"k", 0, [some 1]⟩]⟩

/-- Sample right frame with single key column `k`. -/
def sampleRight : DataFrame := ⟨1, [⟨"k", 0, [some 2]⟩]⟩

/-! ### Lookup and tracker-marking lemmas -/

theorem entryMatches_mark (h : Nat) (row : List Nat) (e : Entry) :
    entryMatches h row { e with tracker := true } = entryMatches h row e := rfl

theorem find?_markFirst_other (h : Nat) (row : List Nat) (p : Entry → Bool)
    (hp : ∀ e, entryMatches h row e = true → p e = false) :
    ∀ l : List Entry,
      (markFirst p l).find? (entryMatches h row) = l.find? (entryMatches h row)
  | [] => rfl
  | e :: es => by
    cases hpe : p e with
    | true =>
      have hqe : entryMatches h row e = false := by
        cases hqe : entryMatches h row e with
        | true => rw [hp e hqe] at hpe; exact absurd hpe (by simp)
        | false => rfl
      have hqe' : entryMatches h row { e with tracker := true } = false := by
        rw [entryMatches_mark]; exact hqe
      rw [show markFirst p (e :: es) = { e with tracker := true } :: es from by
        simp [markFirst, hpe]]
      rw [List.find?_cons_of_neg es (by simp [hqe']),
        List.find?_cons_of_neg es (by simp [hqe])]
    | false =>
      rw [show markFirst p (e :: es) = e :: markFirst p es from by
        simp [markFirst, hpe]]
      cases hqe : entryMatches h row e with
      | true =>
        rw [List.find?_cons_of_pos _ hqe, List.find?_cons_of_pos _ hqe]
      | false =>
        rw [List.find?_cons_of_neg _ (by simp [hqe]),
          List.find?_cons_of_neg _ (by simp [hqe])]
        exact find?_markFirst_other h row p hp es

theorem find?_markFirst_self (h : Nat) (row : List Nat) :
    ∀ l : List Entry,
      (markFirst (entryMatches h row) l).find? (entryMatches h row)
        = (l.find? (entryMatches h row)).map (fun e => { e with tracker := true })
  | [] => rfl
  | e :: es => by
    cases hqe : entryMatches h row e with
    | true =>
      rw [show markFirst (entryMatches h row) (e :: es)
          = { e with tracker := true } :: es from by simp [markFirst, hqe]]
      rw [List.find?_cons_of_pos _ (by rw [entryMatches_mark]; exact hqe),
        List.find?_cons_of_pos _ hqe]
      rfl
    | false =>
      rw [show markFirst (entryMatches h row) (e :: es)
          = e :: markFirst (entryMatches h row) es from by simp [markFirst, hqe]]
      rw [List.find?_cons_of_neg _ (by simp [hqe]),
        List.find?_cons_of_neg _ (by simp [hqe])]
      exact find?_markFirst_self h row es

theorem length_markMatched (ht : List (List Entry)) (h : Nat) (row : List Nat) :
    (markMatched ht h row).length = ht.length :=
  List.length_set ht _ _

/-- Storing into the tracker found for one key does not change what the
lookup returns for a different key. -/
theorem rawEntry_markMatched_ne (ht : List (List Entry)) (h' : Nat)
    (row' : List Nat) (h : Nat) (row : List Nat)
    (hne : ¬(h' = h ∧ row' = row)) :
    rawEntry (markMatched ht h' row') h row = rawEntry ht h row := by
  unfold rawEntry
  rw [length_markMatched]
  unfold markMatched
  rw [List.get?_set]
  by_cases hmn : h' % ht.length = h % ht.length
  · simp only [hmn, if_true]
    cases hs : ht.get? (h % ht.length) with
    | none => simp [hs, hmn]
    | some s =>
      simp only [hs, hmn, Option.map_some', Option.getD_some]
      exact find?_markFirst_other h row _
        (fun e he => by
          cases hpe : entryMatches h' row' e with
          | true =>
            exfalso
            apply hne
            simp only [entryMatches, Bool.and_eq_true, beq_iff_eq] at he hpe
            exact ⟨hpe.1.symm.trans he.1, hpe.2.symm.trans he.2⟩
          | false => rfl) s
  · simp [hmn]

/-- Storing into the tracker found for a key changes exactly that key's
lookup result, setting its tracker. -/
theorem rawEntry_markMatched_self (ht : List (List Entry)) (h : Nat)
    (row : List Nat) :
    rawEntry (markMatched ht h row) h row
      = (rawEntry ht h row).map (fun e => { e with tracker := true }) := by
  unfold rawEntry
  rw [length_markMatched]
  unfold markMatched
  rw [List.get?_set]
  simp only [if_true]
  cases hs : ht.get? (h % ht.length) with
  | none => simp [hs]
  | some s =>
    simp only [hs, Option.map_some', Option.getD_some]
    exact find?_markFirst_self h row s

/-- Tracker stores never change the `left_ids` a lookup returns. -/
theorem rawEntry_markMatched_leftIds (ht : List (List Entry)) (h' : Nat)
    (row' : List Nat) (h : Nat) (row : List Nat) :
    (rawEntry (markMatched ht h' row') h row).map (fun e => e.leftIds)
      = (rawEntry ht h row).map (fun e => e.leftIds) := by
  by_cases heq : h' = h ∧ row' = row
  · obtain ⟨h1, h2⟩ := heq
    subst h1; subst h2
    rw [rawEntry_markMatched_self]
    cases rawEntry ht h' row' <;> rfl
  · rw [rawEntry_markMatched_ne ht h' row' h row heq]

theorem perRowA_congr (ht₁ ht₂ : List (List Entry)) (p : Probe)
    (hE : (rawEntry ht₁ p.2.1 p.2.2).map (fun e => e.leftIds)
        = (rawEntry ht₂ p.2.1 p.2.2).map (fun e => e.leftIds)) :
    perRowA ht₁ p = perRowA ht₂ p := by
  unfold perRowA
  cases h₁ : rawEntry ht₁ p.2.1 p.2.2 <;> cases h₂ : rawEntry ht₂ p.2.1 p.2.2 <;>
    simp [h₁, h₂] at hE ⊢
  exact hE

theorem perRowB_congr (ht₁ ht₂ : List (List Entry)) (p : Probe)
    (hE : (rawEntry ht₁ p.2.1 p.2.2).map (fun e => e.leftIds)
        = (rawEntry ht₂ p.2.1 p.2.2).map (fun e => e.leftIds)) :
    perRowB ht₁ p = perRowB ht₂ p := by
  unfold perRowB
  cases h₁ : rawEntry ht₁ p.2.1 p.2.2 <;> cases h₂ : rawEntry ht₂ p.2.1 p.2.2 <;>
    simp [h₁, h₂] at hE ⊢
  rw [hE]

theorem perRowA_markMatched (ht : List (List Entry)) (h' : Nat)
    (row' : List Nat) (p : Probe) :
    perRowA (markMatched ht h' row') p = perRowA ht p :=
  perRowA_congr _ _ p (rawEntry_markMatched_leftIds ht h' row' p.2.1 p.2.2)

theorem perRowB_markMatched (ht : List (List Entry)) (h' : Nat)
    (row' : List Nat) (p : Probe) :
    perRowB (markMatched ht h' row') p = perRowB ht p :=
  perRowB_congr _ _ p (rawEntry_markMatched_leftIds ht h' row' p.2.1 p.2.2)

/-! ### The probe loop as a flat map over the probed rows -/

theorem matchOuter_a : ∀ (l : List Probe) (s : ProbeState),
    (matchOuter s l).a = s.a ++ l.flatMap (perRowA s.ht)
  | [], s => by simp [matchOuter]
  | p :: l, s => by
    have step : matchOuter s (p :: l) = matchOuter (matchOuterStep s p) l := rfl
    rw [step, matchOuter_a l (matchOuterStep s p)]
    cases hE : rawEntry s.ht p.2.1 p.2.2 with
    | some e =>
      have h1 : (matchOuterStep s p).a = s.a ++ e.leftIds := by
        simp [matchOuterStep, hE]
      have h2 : (matchOuterStep s p).ht = markMatched s.ht p.2.1 p.2.2 := by
        simp [matchOuterStep, hE]
      have h3 : perRowA s.ht p = e.leftIds := by simp [perRowA, hE]
      rw [h1, h2]
      have h4 : perRowA (markMatched s.ht p.2.1 p.2.2) = perRowA s.ht :=
        funext fun q => perRowA_markMatched s.ht p.2.1 p.2.2 q
      rw [h4, List.flatMap_cons, h3, List.append_assoc]
    | none =>
      have h1 : (matchOuterStep s p).a = s.a ++ [ChunkId.null] := by
        simp [matchOuterStep, hE]
      have h2 : (matchOuterStep s p).ht = s.ht := by
        simp [matchOuterStep, hE]
      have h3 : perRowA s.ht p = [ChunkId.null] := by simp [perRowA, hE]
      rw [h1, h2, List.flatMap_cons, h3, List.append_assoc]

theorem matchOuter_b : ∀ (l : List Probe) (s : ProbeState),
    (matchOuter s l).b = s.b ++ l.flatMap (perRowB s.ht)
  | [], s => by simp [matchOuter]
  | p :: l, s => by
    have step : matchOuter s (p :: l) = matchOuter (matchOuterStep s p) l := rfl
    rw [step, matchOuter_b l (matchOuterStep s p)]
    cases hE : rawEntry s.ht p.2.1 p.2.2 with
    | some e =>
      have h1 : (matchOuterStep s p).b = s.b ++ List.replicate e.leftIds.length p.1 := by
        simp [matchOuterStep, hE]
      have h2 : (matchOuterStep s p).ht = markMatched s.ht p.2.1 p.2.2 := by
        simp [matchOuterStep, hE]
      have h3 : perRowB s.ht p = List.replicate e.leftIds.length p.1 := by
        simp [perRowB, hE]
      rw [h1, h2]
      have h4 : perRowB (markMatched s.ht p.2.1 p.2.2) = perRowB s.ht :=
        funext fun q => perRowB_markMatched s.ht p.2.1 p.2.2 q
      rw [h4, List.flatMap_cons, h3, List.append_assoc]
    | none =>
      have h1 : (matchOuterStep s p).b = s.b ++ [p.1] := by
        simp [matchOuterStep, hE]
      have h2 : (matchOuterStep s p).ht = s.ht := by
        simp [matchOuterStep, hE]
      have h3 : perRowB s.ht p = [p.1] := by simp [perRowB, hE]
      rw [h1, h2, List.flatMap_cons, h3, List.append_assoc]

theorem trackerOf_markMatched_ne (ht : List (List Entry)) (h' : Nat)
    (row' : List Nat) (h : Nat) (row : List Nat)
    (hne : ¬(h' = h ∧ row' = row)) :
    trackerOf (markMatched ht h' row') h row = trackerOf ht h row := by
  unfold trackerOf
  rw [rawEntry_markMatched_ne ht h' row' h row hne]

theorem trackerOf_markMatched_self (ht : List (List Entry)) (h : Nat)
    (row : List Nat) :
    trackerOf (markMatched ht h row) h row
      = (rawEntry ht h row).map (fun _ => true) := by
  unfold trackerOf
  rw [rawEntry_markMatched_self]
  cases rawEntry ht h row <;> rfl

/-- The trackers after the probe loop: an entry's tracker reads `true`
exactly when it read `true` before or some probed row carried its key. -/
theorem matchOuter_tracker : ∀ (l : List Probe) (s : ProbeState) (h : Nat)
    (row : List Nat),
    trackerOf (matchOuter s l).ht h row
      = (trackerOf s.ht h row).map
          (fun t => t || l.any (fun p => p.2.1 == h && p.2.2 == row))
  | [], s, h, row => by
    cases ht : trackerOf s.ht h row <;> simp [matchOuter, ht]
  | p :: l, s, h, row => by
    have step : matchOuter s (p :: l) = matchOuter (matchOuterStep s p) l := rfl
    rw [step, matchOuter_tracker l (matchOuterStep s p) h row]
    by_cases hpq : p.2.1 = h ∧ p.2.2 = row
    · obtain ⟨hp1, hp2⟩ := hpq
      have hany : (p :: l).any (fun q => q.2.1 == h && q.2.2 == row) = true := by
        simp [List.any_cons, hp1, hp2]
      cases hE : rawEntry s.ht p.2.1 p.2.2 with
      | some e =>
        have h2 : (matchOuterStep s p).ht = markMatched s.ht p.2.1 p.2.2 := by
          simp [matchOuterStep, hE]
        rw [h2, hp1, hp2] at *
        rw [trackerOf_markMatched_self]
        rw [hp1, hp2] at hE
        simp [hE, hany, trackerOf]
      | none =>
        have h2 : (matchOuterStep s p).ht = s.ht := by
          simp [matchOuterStep, hE]
        rw [hp1, hp2] at hE
        have hT : trackerOf s.ht h row = none := by simp [trackerOf, hE]
        rw [h2, hT]
        rfl
    · have hmatch : (p.2.1 == h && p.2.2 == row) = false := by
        cases h1 : p.2.1 == h <;> cases h2 : p.2.2 == row <;> simp_all [beq_iff_eq]
      have hany : (p :: l).any (fun q => q.2.1 == h && q.2.2 == row)
          = l.any (fun q => q.2.1 == h && q.2.2 == row) := by
        simp [List.any_cons, hmatch]
      rw [hany]
      cases hE : rawEntry s.ht p.2.1 p.2.2 with
      | some e =>
        have h2 : (matchOuterStep s p).ht = markMatched s.ht p.2.1 p.2.2 := by
          simp [matchOuterStep, hE]
        rw [h2, trackerOf_markMatched_ne s.ht p.2.1 p.2.2 h row hpq]
      | none =>
        have h2 : (matchOuterStep s p).ht = s.ht := by
          simp [matchOuterStep, hE]
        rw [h2]

theorem perRow_length (ht : List (List Entry)) (p : Probe) :
    (perRowA ht p).length = (perRowB ht p).length := by
  unfold perRowA perRowB
  cases rawEntry ht p.2.1 p.2.2 <;> simp

/-! ### The probe iterator of `execute_outer` in normal form -/

theorem zip_map_self {α β : Type} : ∀ (rows : List α) (f : α → β),
    (rows.map f).zip rows = rows.map (fun r => (f r, r))
  | [], _ => rfl
  | r :: rs, f => by simp only [List.map_cons, List.zip_cons_cons, zip_map_self rs f]

/-- When `nulls_equal` holds or the batch has no null keys, every row is
probed, with the underlying bytes of its slot. -/
theorem probesOf_pos (op : Operator) (rows : List (Option (List Nat)))
    (hc : (op.nullsEqual || rows.countP (fun r => r.isNone) == 0) = true) :
    probesOf op rows
      = rows.enum.map (fun p => (p.1, op.hb (p.2.getD []), p.2.getD [])) := by
  unfold probesOf
  simp only [hc, if_true]
  rw [List.zip_map', List.enum_map]
  rfl

/-- Otherwise only the rows whose encoded key is present are probed. -/
theorem probesOf_neg (op : Operator) (rows : List (Option (List Nat)))
    (hc : (op.nullsEqual || rows.countP (fun r => r.isNone) == 0) = false) :
    probesOf op rows
      = rows.enum.filterMap (fun p => p.2.map (fun row => (p.1, op.hb row, row))) := by
  unfold probesOf
  simp only [hc, Bool.false_eq_true, if_false]
  rw [zip_map_self rows (fun r => op.hb (r.getD [])), List.enum_map, List.filterMap_map]
  apply List.filterMap_congr
  intro p _
  obtain ⟨i, r⟩ := p
  cases r with
  | none => rfl
  | some k => rfl

/-- The row indices of the probe iterator are pairwise distinct. -/
theorem probesOf_fst_nodup (op : Operator) (rows : List (Option (List Nat))) :
    ((probesOf op rows).map (fun p => p.1)).Nodup := by
  have henum : ((rows.enum.map (fun p : Nat × Option (List Nat) => p.1)).Nodup) := by
    rw [show (rows.enum.map (fun p : Nat × Option (List Nat) => p.1))
        = rows.enum.map Prod.fst from rfl, List.enum_map_fst]
    exact List.nodup_range rows.length
  cases hc : (op.nullsEqual || rows.countP (fun r => r.isNone) == 0) with
  | true =>
    rw [probesOf_pos op rows hc, List.map_map]
    exact henum
  | false =>
    rw [probesOf_neg op rows hc]
    refine List.Nodup.sublist ?_ henum
    clear henum hc
    induction rows.enum with
    | nil => exact List.Sublist.refl []
    | cons p l ih =>
      obtain ⟨i, r⟩ := p
      cases r with
      | none => exact List.Sublist.cons i ih
      | some k => exact List.Sublist.cons₂ i ih

/-- The probe the iterator produces for a probed row `i` is
`(i, hb (keyAt rows i), keyAt rows i)`. -/
theorem probesOf_mem (op : Operator) (rows : List (Option (List Nat))) (i : Nat)
    (hi : i < rows.length)
    (hp : op.nullsEqual = true ∨ rows.countP (fun r => r.isNone) = 0
        ∨ ((rows.get? i).getD none).isSome = true) :
    (i, op.hb (keyAt rows i), keyAt rows i) ∈ probesOf op rows := by
  obtain ⟨r, hr⟩ : ∃ r, rows.get? i = some r := by
    rw [List.get?_eq_get hi]; exact ⟨_, rfl⟩
  have hkey : keyAt rows i = r.getD [] := by unfold keyAt; rw [hr]; rfl
  cases hc : (op.nullsEqual || rows.countP (fun r => r.isNone) == 0) with
  | true =>
    rw [probesOf_pos op rows hc]
    refine List.mem_map.mpr ⟨(i, r), List.mem_enum_iff_get?.mpr hr, ?_⟩
    rw [hkey]
  | false =>
    have hsome : r.isSome = true := by
      rcases hp with h1 | h2 | h3
      · rw [h1] at hc; exact absurd hc (by simp)
      · have : (rows.countP (fun r => r.isNone) == 0) = true := by
          simp [h2]
        rw [this, Bool.or_true] at hc; exact absurd hc (by simp)
      · rw [hr] at h3; exact h3
    obtain ⟨k, hk⟩ := Option.isSome_iff_exists.mp hsome
    subst hk
    rw [probesOf_neg op rows hc]
    refine List.mem_filterMap.mpr ⟨(i, some k), List.mem_enum_iff_get?.mpr hr, ?_⟩
    rw [hkey]
    rfl

/-- Every index that a probed row contributes to `join_tuples_b` is that
row's own index. -/
theorem perRowB_mem (ht : List (List Entry)) (p : Probe) :
    ∀ x ∈ perRowB ht p, x = p.1 := by
  intro x hx
  unfold perRowB at hx
  cases hE : rawEntry ht p.2.1 p.2.2 with
  | some e => rw [hE] at hx; exact List.eq_of_mem_replicate hx
  | none => rw [hE] at hx; simpa using hx

/-- Every pair that a probed row contributes carries that row's index on
the right. -/
theorem perRowPairs_snd (ht : List (List Entry)) (p : Probe) :
    ∀ x ∈ perRowPairs ht p, x.2 = p.1 := by
  intro x hx
  unfold perRowPairs at hx
  cases hE : rawEntry ht p.2.1 p.2.2 with
  | some e =>
    rw [hE] at hx
    obtain ⟨c, _, hc⟩ := List.mem_map.mp hx
    rw [← hc]
  | none => rw [hE] at hx; simp at hx; rw [hx]

theorem zip_replicate_self {α β : Type} (a : β) :
    ∀ xs : List α, xs.zip (List.replicate xs.length a) = xs.map (fun x => (x, a))
  | [] => rfl
  | x :: xs => by
    simp only [List.length_cons, List.replicate_succ, List.zip_cons_cons,
      List.map_cons, zip_replicate_self a xs]

/-- Zipping the two per-row buffers recovers the per-row pairs. -/
theorem zip_flatMap_perRow (ht : List (List Entry)) :
    ∀ l : List Probe,
      (l.flatMap (perRowA ht)).zip (l.flatMap (perRowB ht))
        = l.flatMap (perRowPairs ht)
  | [] => rfl
  | p :: l => by
    rw [List.flatMap_cons, List.flatMap_cons, List.flatMap_cons,
      List.zip_append (perRow_length ht p), zip_flatMap_perRow ht l]
    congr 1
    unfold perRowA perRowB perRowPairs
    cases rawEntry ht p.2.1 p.2.2 with
    | some e => exact zip_replicate_self p.1 e.leftIds
    | none => rfl

theorem filter_pairs_not_mem (ht : List (List Entry)) (i : Nat) :
    ∀ l : List Probe, (∀ q ∈ l, q.1 ≠ i) →
      (l.flatMap (perRowPairs ht)).filter (fun x => x.2 == i) = []
  | [], _ => rfl
  | p :: l, hq => by
    rw [List.flatMap_cons, List.filter_append]
    rw [List.filter_eq_nil_iff.mpr
      (fun x hx => by
        have := perRowPairs_snd ht p x hx
        simp only [beq_iff_eq, this]
        exact hq p (List.mem_cons_self p l)),
      filter_pairs_not_mem ht i l (fun q hql => hq q (List.mem_cons_of_mem p hql))]
    rfl

theorem count_b_not_mem (ht : List (List Entry)) (i : Nat) :
    ∀ l : List Probe, (∀ q ∈ l, q.1 ≠ i) →
      (l.flatMap (perRowB ht)).count i = 0
  | [], _ => rfl
  | p :: l, hq => by
    rw [List.flatMap_cons, List.count_append]
    rw [List.count_eq_zero.mpr
      (fun hx => hq p (List.mem_cons_self p l) (perRowB_mem ht p i hx).symm),
      count_b_not_mem ht i l (fun q hql => hq q (List.mem_cons_of_mem p hql))]

theorem nodup_fst_head_not_mem {l : List Probe} {q : Probe}
    (hnd : ((q :: l).map (fun p => p.1)).Nodup) :
    ∀ p ∈ l, p.1 ≠ q.1 := by
  intro p hp heq
  rw [List.map_cons, List.nodup_cons] at hnd
  exact hnd.1 (heq ▸ List.mem_map.mpr ⟨p, hp, rfl⟩)

/-- With pairwise-distinct row indices the pairs whose right side is `i`
are exactly the pairs produced for the unique probe of row `i`. -/
theorem filter_pairs_unique (ht : List (List Entry)) :
    ∀ (l : List Probe) (p : Probe), p ∈ l →
      ((l.map (fun q => q.1)).Nodup) →
      (l.flatMap (perRowPairs ht)).filter (fun x => x.2 == p.1)
        = perRowPairs ht p
  | [], p, hp, _ => absurd hp (List.not_mem_nil p)
  | q :: l, p, hp, hnd => by
    rw [List.flatMap_cons, List.filter_append]
    cases List.mem_cons.mp hp with
    | inl heq =>
      subst heq
      rw [List.filter_eq_self.mpr
        (fun x hx => by simp [perRowPairs_snd ht p x hx]),
        filter_pairs_not_mem ht p.1 l (nodup_fst_head_not_mem hnd),
        List.append_nil]
    | inr hmem =>
      have hne : q.1 ≠ p.1 := fun heq =>
        nodup_fst_head_not_mem hnd p hmem heq.symm
      rw [List.filter_eq_nil_iff.mpr
        (fun x hx => by
          have := perRowPairs_snd ht q x hx
          simp only [beq_iff_eq, this]
          exact hne),
        List.nil_append]
      exact filter_pairs_unique ht l p hmem
        (by rw [List.map_cons] at hnd; exact hnd.of_cons)

/-- With pairwise-distinct row indices, row `i` occurs in `join_tuples_b`
as often as its unique probe produced entries. -/
theorem count_b_unique (ht : List (List Entry)) :
    ∀ (l : List Probe) (p : Probe), p ∈ l →
      ((l.map (fun q => q.1)).Nodup) →
      (l.flatMap (perRowB ht)).count p.1 = (perRowB ht p).length
  | [], p, hp, _ => absurd hp (List.not_mem_nil p)
  | q :: l, p, hp, hnd => by
    rw [List.flatMap_cons, List.count_append]
    cases List.mem_cons.mp hp with
    | inl heq =>
      subst heq
      rw [List.count_eq_length.mpr
        (fun x hx => (perRowB_mem ht p x hx).symm),
        count_b_not_mem ht p.1 l (nodup_fst_head_not_mem hnd), Nat.add_zero]
    | inr hmem =>
      have hne : q.1 ≠ p.1 := fun heq =>
        nodup_fst_head_not_mem hnd p hmem heq.symm
      rw [List.count_eq_zero.mpr
        (fun hx => hne (perRowB_mem ht q p.1 hx).symm),
        Nat.zero_add]
      exact count_b_unique ht l p hmem
        (by rw [List.map_cons] at hnd; exact hnd.of_cons)

/-! ### Claim C4 -/

/-- Claim C4: for every probed row `i` the probe loop appends, on a hit,
the entry's `left_ids` in stored order to `join_tuples_a` and `i` once per
appended id to `join_tuples_b` (keeping the buffers the same length) while
storing `true` into the entry's tracker, and on a miss one
`ChunkId::null` / `i` pair; the appended runs follow the iterator's row
order, so output order follows batch row order. -/
theorem c4_probe_loop_per_row (s : ProbeState) (l : List Probe)
    (hab : s.a.length = s.b.length) :
    (matchOuter s l).a = s.a ++ l.flatMap (perRowA s.ht) ∧
    (matchOuter s l).b = s.b ++ l.flatMap (perRowB s.ht) ∧
    (matchOuter s l).a.length = (matchOuter s l).b.length ∧
    ∀ h row, trackerOf (matchOuter s l).ht h row
      = (trackerOf s.ht h row).map
          (fun t => t || l.any (fun p => p.2.1 == h && p.2.2 == row)) := by
  refine ⟨matchOuter_a l s, matchOuter_b l s, ?_,
    fun h row => matchOuter_tracker l s h row⟩
  rw [matchOuter_a l s, matchOuter_b l s, List.length_append, List.length_append,
    List.length_flatMap, List.length_flatMap, hab,
    show (List.length ∘ perRowA s.ht) = (List.length ∘ perRowB s.ht) from
      funext fun p => perRow_length s.ht p]

/-- Witness for C4 at a concrete state and probe list: row 0 hits the
two-id entry, row 1 misses. -/
theorem c4_probe_loop_per_row_witness :
    (matchOuter sampleState sampleProbes).a
        = [ChunkId.id 0 0, ChunkId.id 0 1, ChunkId.null] ∧
    (matchOuter sampleState sampleProbes).b = [0, 0, 1] := by
  have h := c4_probe_loop_per_row sampleState sampleProbes rfl
  exact ⟨h.1.trans (by decide), h.2.1.trans (by decide)⟩

/-! ### Claim C2 -/

theorem foldl_append_if {α β : Type} (q : α → Bool) (g : α → List β) :
    ∀ (l : List α) (acc : List β),
      l.foldl (fun a x => if q x then a ++ g x else a) acc
        = acc ++ (l.filter q).flatMap g
  | [], acc => by simp
  | x :: l, acc => by
    cases hx : q x with
    | true =>
      rw [List.foldl_cons]
      simp only [hx, if_true]
      rw [foldl_append_if q g l (acc ++ g x), List.filter_cons_of_pos hx,
        List.flatMap_cons, List.append_assoc]
    | false =>
      rw [List.foldl_cons]
      simp only [hx, Bool.false_eq_true, if_false]
      rw [foldl_append_if q g l acc, List.filter_cons_of_neg (by simp [hx])]

/-- The flush scan in closed form: owned shards, unmatched entries, their
left ids, in scan order. -/
theorem flushIds_eq (ht : List (List Entry)) (t : Nat) :
    flushIds ht t
      = (ht.enum.filter (fun p => p.1 % ht.length == t)).flatMap
          (fun p => (p.2.filter (fun e => !e.tracker)).flatMap
            (fun e => e.leftIds)) := by
  unfold flushIds
  rw [show (fun (acc : List ChunkId) (p : Nat × List Entry) =>
        if p.1 % ht.length == t then
          p.2.foldl (fun acc2 e => if !e.tracker then acc2 ++ e.leftIds else acc2) acc
        else acc)
      = (fun (acc : List ChunkId) (p : Nat × List Entry) =>
        if (fun (p : Nat × List Entry) => p.1 % ht.length == t) p then
          acc ++ (fun (p : Nat × List Entry) =>
            (p.2.filter (fun e => !e.tracker)).flatMap (fun e => e.leftIds)) p
        else acc) from funext fun acc => funext fun p => by
      cases hc : p.1 % ht.length == t with
      | true =>
        simp only [hc, if_true]
        exact foldl_append_if (fun e => !e.tracker) (fun e => e.leftIds) p.2 acc
      | false => simp only [hc, Bool.false_eq_true, if_false]]
  rw [foldl_append_if, List.nil_append]

/-- Membership in the flush scan output. -/
theorem mem_flushIds (ht : List (List Entry)) (t : Nat) (c : ChunkId) :
    c ∈ flushIds ht t
      ↔ ∃ i shard, ht.get? i = some shard ∧ i % ht.length = t
          ∧ ∃ e ∈ shard, e.tracker = false ∧ c ∈ e.leftIds := by
  rw [flushIds_eq]
  constructor
  · intro hc
    obtain ⟨p, hp, hcp⟩ := List.mem_flatMap.mp hc
    obtain ⟨hpe, hpc⟩ := List.mem_filter.mp hp
    obtain ⟨e, he, hce⟩ := List.mem_flatMap.mp hcp
    obtain ⟨hes, het⟩ := List.mem_filter.mp he
    refine ⟨p.1, p.2, List.mem_enum_iff_get?.mp hpe, by simpa using hpc,
      e, hes, ?_, hce⟩
    simpa using het
  · rintro ⟨i, shard, hget, hmod, e, he, htr, hc⟩
    refine List.mem_flatMap.mpr ⟨(i, shard),
      List.mem_filter.mpr ⟨List.mem_enum_iff_get?.mpr hget, by simp [hmod]⟩,
      List.mem_flatMap.mpr ⟨e, List.mem_filter.mpr ⟨he, by simp [htr]⟩, hc⟩⟩

/-- Claim C2: after the flush shard scan, `join_tuples_a` holds exactly
the left ids of tracker-`false` entries in the shards whose index `i`
satisfies `i % S == thread_no`, and nothing else. -/
theorem c2_flush_scan_exact (ht : List (List Entry)) (t : Nat) :
    flushIds ht t
      = (ht.enum.filter (fun p => p.1 % ht.length == t)).flatMap
          (fun p => (p.2.filter (fun e => !e.tracker)).flatMap
            (fun e => e.leftIds)) ∧
    ∀ c, c ∈ flushIds ht t
      ↔ ∃ i shard, ht.get? i = some shard ∧ i % ht.length = t
          ∧ ∃ e ∈ shard, e.tracker = false ∧ c ∈ e.leftIds :=
  ⟨flushIds_eq ht t, fun c => mem_flushIds ht t c⟩

/-- Witness for C2: on the two-shard sample index, worker 0's scan picks
exactly the unmatched entry of shard 0. -/
theorem c2_flush_scan_exact_witness : flushIds sampleHt2 0 = [ChunkId.id 0 0] :=
  (c2_flush_scan_exact sampleHt2 0).1.trans (by decide)

/-! ### Claims C9 and C10 -/

theorem mustFlush_executeOuter (op : Operator) (chunk : DataChunk)
    (rows : List (Option (List Nat))) :
    mustFlush (executeOuter op chunk rows).1 = true := by
  show (if op.dfBFlushDummy.isNone then some chunk.data.clear
      else op.dfBFlushDummy).isSome = true
  cases h : op.dfBFlushDummy with
  | none => rfl
  | some d => rfl

theorem mustFlush_runBatches (op : Operator)
    (batches : List (DataChunk × List (Option (List Nat))))
    (h : mustFlush op = true) : mustFlush (runBatches op batches) = true := by
  induction batches generalizing op with
  | nil => exact h
  | cons b bs ih =>
    exact ih (executeOuter op b.1 b.2).1 (mustFlush_executeOuter op b.1 b.2)

/-- Claim C9: `must_flush` is `false` on a freshly constructed operator
and `true` exactly when at least one batch has been executed on it; once
an `execute` has run it stays `true` forever. -/
theorem c9_must_flush_iff_batch_seen (dfA : ChunkedFrame) (suffix : String)
    (hb : List Nat → Nat) (ht : List (List Entry))
    (swapped nullsEqual coalesce : Bool) (kl kr : List String)
    (batches : List (DataChunk × List (Option (List Nat)))) :
    mustFlush (newOperator dfA suffix hb ht swapped nullsEqual coalesce kl kr)
        = false ∧
    (∀ (op : Operator) (chunk : DataChunk) (rows : List (Option (List Nat))),
      mustFlush (executeOuter op chunk rows).1 = true) ∧
    mustFlush (runBatches
        (newOperator dfA suffix hb ht swapped nullsEqual coalesce kl kr) batches)
      = !batches.isEmpty := by
  refine ⟨rfl, fun op chunk rows => mustFlush_executeOuter op chunk rows, ?_⟩
  cases batches with
  | nil => rfl
  | cons b bs =>
    rw [show runBatches
        (newOperator dfA suffix hb ht swapped nullsEqual coalesce kl kr) (b :: bs)
      = runBatches (executeOuter
          (newOperator dfA suffix hb ht swapped nullsEqual coalesce kl kr)
          b.1 b.2).1 bs from rfl]
    rw [mustFlush_runBatches _ bs (mustFlush_executeOuter _ b.1 b.2)]
    rfl

/-- Claim C10: `flush` reaches the `df_b_flush_dummy` unwrap and panics
exactly when no batch was ever executed (`must_flush() == false`); under
`must_flush() == true` the unwrap cannot fail. -/
theorem c10_flush_unwrap_iff_must_flush (op : Operator) :
    (executeFlush op).isSome = mustFlush op := by
  show (match op.dfBFlushDummy with
    | none => (none : Option (Operator × DataChunk))
    | some dummy =>
        some ((finishJoin { op with joinTuplesA := flushIds op.ht op.threadNo }
            (takeChunked op.dfA (flushIds op.ht op.threadNo))
            (flushRightFrame dummy
              (takeChunked op.dfA (flushIds op.ht op.threadNo)).height)).1,
          ⟨0, (finishJoin { op with joinTuplesA := flushIds op.ht op.threadNo }
            (takeChunked op.dfA (flushIds op.ht op.threadNo))
            (flushRightFrame dummy
              (takeChunked op.dfA (flushIds op.ht op.threadNo)).height)).2⟩)).isSome
    = op.dfBFlushDummy.isSome
  cases op.dfBFlushDummy <;> rfl

/-! ### Claim C8 -/

/-- Counterexample to C8 as stated: splitting an operator that has already
executed a batch yields a clone whose `must_flush()` is `true` — the clone
is not in the Fresh state, because `clone()` copies the captured
`df_b_flush_dummy`. -/
theorem c8_split_of_streamed_not_fresh :
    streamedOp = (executeOuter probeOp sampleChunk [some [1]]).1 ∧
    mustFlush streamedOp = true ∧
    (splitOp streamedOp 1).threadNo = 1 ∧
    mustFlush (splitOp streamedOp 1) = true :=
  ⟨rfl, rfl, rfl, rfl⟩

/-- Claim C8 (amended): `split(t)` returns a clone that shares the left
dataframe, the hash index, the hasher and the whole configuration, differs
only in `thread_no = t`, and reports the same `must_flush()` as its
source — in particular it is Fresh exactly when the source is Fresh. -/
theorem c8_split_clone_shares_state (op : Operator) (t : Nat) :
    (splitOp op t).threadNo = t ∧
    (splitOp op t).dfA = op.dfA ∧
    (splitOp op t).ht = op.ht ∧
    (splitOp op t).hb = op.hb ∧
    (splitOp op t).suffix = op.suffix ∧
    (splitOp op t).swapped = op.swapped ∧
    (splitOp op t).nullsEqual = op.nullsEqual ∧
    (splitOp op t).coalesce = op.coalesce ∧
    (splitOp op t).keyNamesLeft = op.keyNamesLeft ∧
    (splitOp op t).keyNamesRight = op.keyNamesRight ∧
    (splitOp op t).dfBFlushDummy = op.dfBFlushDummy ∧
    mustFlush (splitOp op t) = mustFlush op :=
  ⟨rfl, rfl, rfl, rfl, rfl, rfl, rfl, rfl, rfl, rfl, rfl, rfl⟩

/-! ### Claim C5 -/

/-- Claim C5: with `nulls_equal = false` and at least one null key in the
batch, a row whose encoded key is absent is skipped by the probe pass: its
index reaches neither `join_tuples_b` nor any emitted pair. -/
theorem c5_null_keyed_rows_skipped (op : Operator) (chunk : DataChunk)
    (rows : List (Option (List Nat))) (i : Nat)
    (hne : op.nullsEqual = false)
    (hnull : rows.countP (fun r => r.isNone) ≠ 0)
    (hrow : rows.get? i = some none) :
    i ∉ (executeOuter op chunk rows).1.joinTuplesB ∧
    ((executeOuter op chunk rows).1.joinTuplesA.zip
        (executeOuter op chunk rows).1.joinTuplesB).filter
      (fun x => x.2 == i) = [] := by
  have hc : (op.nullsEqual || rows.countP (fun r => r.isNone) == 0) = false := by
    rw [hne]
    simpa using hnull
  have hbval : (executeOuter op chunk rows).1.joinTuplesB
      = (probesOf op rows).flatMap (perRowB op.ht) := by
    rw [show (executeOuter op chunk rows).1.joinTuplesB
        = (matchOuter ⟨op.ht, [], []⟩ (probesOf op rows)).b from rfl,
      matchOuter_b, List.nil_append]
  have hnotmem : i ∉ (executeOuter op chunk rows).1.joinTuplesB := by
    rw [hbval]
    intro hmem
    obtain ⟨p, hp, hip⟩ := List.mem_flatMap.mp hmem
    have hpi : i = p.1 := perRowB_mem op.ht p i hip
    rw [probesOf_neg op rows hc] at hp
    obtain ⟨q, hq, hqp⟩ := List.mem_filterMap.mp hp
    cases hqr : q.2 with
    | none => rw [hqr] at hqp; exact absurd hqp (by simp)
    | some k =>
      rw [hqr] at hqp
      have hq1 : q.1 = p.1 := by
        have := Option.some.inj hqp
        rw [← this]
      have hqget : rows.get? q.1 = some (some k) := by
        have := List.mem_enum_iff_get?.mp hq
        rw [← hqr]; exact this
      rw [hq1, ← hpi, hrow] at hqget
      exact absurd (Option.some.inj hqget) (by simp)
  refine ⟨hnotmem, List.filter_eq_nil_iff.mpr fun x hx hxi => ?_⟩
  have hxb : x.2 ∈ (executeOuter op chunk rows).1.joinTuplesB :=
    (List.mem_zip hx).2
  rw [beq_iff_eq] at hxi
  rw [hxi] at hxb
  exact hnotmem hxb

/-- Witness for C5: row 0 of a two-row batch has a null key and is
skipped. -/
theorem c5_null_keyed_rows_skipped_witness :
    0 ∉ (executeOuter probeOp sampleChunk [none, some [1]]).1.joinTuplesB ∧
    ((executeOuter probeOp sampleChunk [none, some [1]]).1.joinTuplesA.zip
        (executeOuter probeOp sampleChunk [none, some [1]]).1.joinTuplesB).filter
      (fun x => x.2 == 0) = [] :=
  c5_null_keyed_rows_skipped probeOp sampleChunk [none, some [1]] 0 rfl
    (by decide) rfl

/-! ### Claim C1 -/

/-- Counterexample to C1 as stated: with `nulls_equal = false` and a
null-keyed row present, that right row is skipped entirely — it appears in
`join_tuples_b` zero times, not at least once. -/
theorem c1_null_keyed_row_not_emitted :
    probeOp.nullsEqual = false ∧
    ([none] : List (Option (List Nat))).length = 1 ∧
    (executeOuter probeOp sampleChunk [none]).1.joinTuplesB = [] := by
  refine ⟨rfl, rfl, ?_⟩
  decide

/-- Claim C1 (amended): every right row `i` that the pass probes (every
row when `nulls_equal` holds or the batch has no null key; otherwise every
row whose encoded key is present) appears in that batch's `join_tuples_b`
exactly `max(1, m)` times, paired with the `m` matching left ids when it
matches and with `ChunkId::null` when it does not (assuming the build-side
invariant that no hash-index entry has an empty id list). -/
theorem c1_probed_row_coverage (op : Operator) (chunk : DataChunk)
    (rows : List (Option (List Nat))) (i : Nat)
    (hwf : ∀ shard ∈ op.ht, ∀ e ∈ shard, e.leftIds ≠ [])
    (hi : i < rows.length)
    (hp : op.nullsEqual = true ∨ rows.countP (fun r => r.isNone) = 0
        ∨ ((rows.get? i).getD none).isSome = true) :
    (((executeOuter op chunk rows).1.joinTuplesA.zip
        (executeOuter op chunk rows).1.joinTuplesB).filter (fun x => x.2 == i)
      = perRowPairs op.ht (i, op.hb (keyAt rows i), keyAt rows i)) ∧
    (executeOuter op chunk rows).1.joinTuplesB.count i
      = max 1 (((rawEntry op.ht (op.hb (keyAt rows i)) (keyAt rows i)).map
          (fun e => e.leftIds.length)).getD 0) := by
  have ha : (executeOuter op chunk rows).1.joinTuplesA
      = (probesOf op rows).flatMap (perRowA op.ht) := by
    rw [show (executeOuter op chunk rows).1.joinTuplesA
        = (matchOuter ⟨op.ht, [], []⟩ (probesOf op rows)).a from rfl,
      matchOuter_a, List.nil_append]
  have hbv : (executeOuter op chunk rows).1.joinTuplesB
      = (probesOf op rows).flatMap (perRowB op.ht) := by
    rw [show (executeOuter op chunk rows).1.joinTuplesB
        = (matchOuter ⟨op.ht, [], []⟩ (probesOf op rows)).b from rfl,
      matchOuter_b, List.nil_append]
  have hmem := probesOf_mem op rows i hi hp
  have hnd := probesOf_fst_nodup op rows
  constructor
  · rw [ha, hbv, zip_flatMap_perRow]
    exact filter_pairs_unique op.ht (probesOf op rows)
      (i, op.hb (keyAt rows i), keyAt rows i) hmem hnd
  · rw [hbv]
    have hcount : ((probesOf op rows).flatMap (perRowB op.ht)).count i
        = (perRowB op.ht (i, op.hb (keyAt rows i), keyAt rows i)).length :=
      count_b_unique op.ht (probesOf op rows)
        (i, op.hb (keyAt rows i), keyAt rows i) hmem hnd
    rw [hcount]
    unfold perRowB
    cases hE : rawEntry op.ht (op.hb (keyAt rows i)) (keyAt rows i) with
    | some e =>
      simp only [hE, Option.map_some', Option.getD_some, List.length_replicate]
      have hne : e.leftIds ≠ [] := by
        have hj := hE
        unfold rawEntry at hj
        cases hsh : op.ht.get?
            (op.hb (keyAt rows i) % op.ht.length) with
        | none =>
          rw [hsh] at hj
          exact absurd hj (by simp)
        | some s =>
          rw [hsh] at hj
          simp only [Option.getD_some] at hj
          exact hwf s (List.get?_mem hsh) e (List.mem_of_find?_eq_some hj)
      have hlen : 1 ≤ e.leftIds.length := by
        cases hl : e.leftIds with
        | nil => exact absurd hl hne
        | cons x xs => simp [hl]
      exact (Nat.max_eq_right hlen).symm
    | none => simp [hE]

/-- Witness for C1 (amended): the single probed row hits the two-id entry
and appears twice, paired with both left ids. -/
theorem c1_probed_row_coverage_witness :
    ((executeOuter probeOp sampleChunk [some [1]]).1.joinTuplesA.zip
        (executeOuter probeOp sampleChunk [some [1]]).1.joinTuplesB).filter
      (fun x => x.2 == 0)
      = [(ChunkId.id 0 0, 0), (ChunkId.id 0 1, 0)] ∧
    (executeOuter probeOp sampleChunk [some [1]]).1.joinTuplesB.count 0 = 2 := by
  have h := c1_probed_row_coverage probeOp sampleChunk [some [1]] 0
    (by decide) (by decide) (Or.inr (Or.inl (by decide)))
  exact ⟨h.1.trans (by decide), h.2.trans (by decide)⟩

/-! ### Claim C3 -/

/-- For a worker id below the shard count, the flush scan output is the
unmatched content of exactly that worker's own shard. -/
theorem mem_flushIds_lt (ht : List (List Entry)) (t : Nat)
    (hlt : t < ht.length) (c : ChunkId) :
    c ∈ flushIds ht t
      ↔ ∃ shard, ht.get? t = some shard
          ∧ ∃ e ∈ shard, e.tracker = false ∧ c ∈ e.leftIds := by
  rw [mem_flushIds]
  constructor
  · rintro ⟨i, shard, hget, hmod, he⟩
    have hi : i < ht.length := by
      obtain ⟨hw, -⟩ := List.get?_eq_some.mp hget
      exact hw
    have : i = t := by rw [← hmod, Nat.mod_eq_of_lt hi]
    subst this
    exact ⟨shard, hget, he⟩
  · rintro ⟨shard, hget, he⟩
    exact ⟨t, shard, hget, Nat.mod_eq_of_lt hlt, he⟩

/-- Claim C3: with `S` shards and workers `t ∈ [0, S)` each flushing with
`thread_no = t`, the flushed left-id sets are pairwise disjoint (given the
build-side invariant that each left id is stored once in the whole index)
and their union is exactly the set of left ids under a `false` tracker. -/
theorem c3_flush_partition (ht : List (List Entry))
    (hnd : (allLeftIds ht).Nodup) :
    (∀ t₁ t₂, t₁ < ht.length → t₂ < ht.length → t₁ ≠ t₂ →
      ∀ c, c ∈ flushIds ht t₁ → c ∉ flushIds ht t₂) ∧
    (∀ c, (∃ t, t < ht.length ∧ c ∈ flushIds ht t)
        ↔ c ∈ unmatchedLeftIds ht) := by
  have hpw : List.Pairwise
      (fun s₁ s₂ => List.Disjoint (s₁.flatMap fun e => e.leftIds)
        (s₂.flatMap fun e => e.leftIds)) ht := by
    have := (List.nodup_flatMap.mp hnd).2
    simpa [Function.onFun] using this
  constructor
  · intro t₁ t₂ h1 h2 hne c hc1 hc2
    obtain ⟨s₁, hg1, e₁, he1, _, hc1'⟩ := (mem_flushIds_lt ht t₁ h1 c).mp hc1
    obtain ⟨s₂, hg2, e₂, he2, _, hc2'⟩ := (mem_flushIds_lt ht t₂ h2 c).mp hc2
    have hm1 : c ∈ s₁.flatMap fun e => e.leftIds :=
      List.mem_flatMap.mpr ⟨e₁, he1, hc1'⟩
    have hm2 : c ∈ s₂.flatMap fun e => e.leftIds :=
      List.mem_flatMap.mpr ⟨e₂, he2, hc2'⟩
    have hget := List.pairwise_iff_get.mp hpw
    have hs1 : ht.get ⟨t₁, h1⟩ = s₁ := by
      have := List.get?_eq_get h1
      rw [hg1] at this
      exact (Option.some.inj this).symm
    have hs2 : ht.get ⟨t₂, h2⟩ = s₂ := by
      have := List.get?_eq_get h2
      rw [hg2] at this
      exact (Option.some.inj this).symm
    cases Nat.lt_or_ge t₁ t₂ with
    | inl hlt =>
      have hd := hget ⟨t₁, h1⟩ ⟨t₂, h2⟩ hlt
      rw [hs1, hs2] at hd
      exact hd hm1 hm2
    | inr hge =>
      have hlt : t₂ < t₁ := Nat.lt_of_le_of_ne hge (fun h => hne h.symm)
      have hd := hget ⟨t₂, h2⟩ ⟨t₁, h1⟩ hlt
      rw [hs1, hs2] at hd
      exact hd hm2 hm1
  · intro c
    constructor
    · rintro ⟨t, hlt, hc⟩
      obtain ⟨shard, hget, e, he, htr, hc'⟩ := (mem_flushIds_lt ht t hlt c).mp hc
      exact List.mem_flatMap.mpr ⟨shard, List.get?_mem hget,
        List.mem_flatMap.mpr ⟨e, List.mem_filter.mpr ⟨he, by simp [htr]⟩, hc'⟩⟩
    · intro hc
      obtain ⟨shard, hshard, hcs⟩ := List.mem_flatMap.mp hc
      obtain ⟨t, hget⟩ := List.mem_iff_get?.mp hshard
      have hlt : t < ht.length := (List.get?_eq_some.mp hget).1
      obtain ⟨e, he, hce⟩ := List.mem_flatMap.mp hcs
      obtain ⟨hes, het⟩ := List.mem_filter.mp he
      refine ⟨t, hlt, (mem_flushIds_lt ht t hlt c).mpr
        ⟨shard, hget, e, hes, ?_, hce⟩⟩
      simpa using het

/-- Witness for C3: on the two-shard sample index the id flushed by
worker 0 is not flushed by worker 1. -/
theorem c3_flush_partition_witness :
    (allLeftIds sampleHt2).Nodup ∧ ChunkId.id 0 0 ∉ flushIds sampleHt2 1 :=
  ⟨by decide,
    (c3_flush_partition sampleHt2 (by decide)).1 0 1 (by decide) (by decide)
      (by decide) (ChunkId.id 0 0) (by decide)⟩

/-! ### Claim C6 -/

theorem map_name_zip_rename :
    ∀ (cols : List Column) (names : List String), cols.length = names.length →
      (((cols.zip names).map (fun p => { p.1 with name := p.2 })).map
        (fun c => c.name)) = names
  | [], [], _ => rfl
  | [], n :: ns, h => absurd h (by simp)
  | c :: cs, [], h => absurd h (by simp)
  | c :: cs, n :: ns, h => by
    rw [List.zip_cons_cons, List.map_cons, List.map_cons]
    rw [map_name_zip_rename cs ns (by simpa using h)]

/-- On later invocations the positional rename pass reproduces exactly the
cached names (when the combined column count matches the cache). -/
theorem innerFinish_cached (ldf rdf : DataFrame) (suffix : String)
    (swapped : Bool) (names : List String)
    (hlen : ldf.columns.length + rdf.columns.length = names.length) :
    ((innerFinish ldf rdf suffix swapped (some names)).1.columns.map
        (fun c => c.name) = names) ∧
    (innerFinish ldf rdf suffix swapped (some names)).2 = some names := by
  have hre : innerFinish ldf rdf suffix swapped (some names)
      = (⟨(if swapped then rdf else ldf).height,
          ((((if swapped then rdf else ldf).columns
              ++ (if swapped then ldf else rdf).columns).zip names).map
            (fun p => { p.1 with name := p.2 }))
          ++ ((if swapped then rdf else ldf).columns
              ++ (if swapped then ldf else rdf).columns).drop names.length⟩,
         some names) := rfl
  have hclen : ((if swapped then rdf else ldf).columns
      ++ (if swapped then ldf else rdf).columns).length = names.length := by
    cases swapped with
    | true => simpa [List.length_append, Nat.add_comm] using hlen
    | false => simpa [List.length_append] using hlen
  rw [hre]
  refine ⟨?_, rfl⟩
  rw [List.drop_eq_nil_of_le (Nat.le_of_eq hclen), List.append_nil]
  exact map_name_zip_rename _ names hclen

theorem map_name_modify (lk : String) (f : Column → List (Option Nat)) :
    ∀ cols : List Column,
      ((cols.map fun c =>
        if c.name == lk then { c with values := f c } else c).map
          (fun c => c.name)) = cols.map (fun c => c.name) := by
  intro cols
  rw [List.map_map]
  rw [show ((fun c : Column => c.name) ∘ fun c =>
      if c.name == lk then { c with values := f c } else c)
      = (fun c : Column => c.name) from
    funext fun c => by by_cases h : c.name = lk <;> simp [Function.comp, h]]

theorem coalesceStep_names (suffix : String) (dfLeft : DataFrame)
    (acc : DataFrame) (p : String × String) :
    (coalesceStep suffix dfLeft acc p).columns.map (fun c => c.name)
      = (acc.columns.map (fun c => c.name)).filter
          (fun n => n != (if dfLeft.columns.any (fun c => c.name == p.2)
            then p.2 ++ suffix else p.2)) := by
  unfold coalesceStep
  rw [map_name_modify]
  exact (@List.filter_map Column String
    (fun n => n != (if dfLeft.columns.any (fun c => c.name == p.2)
      then p.2 ++ suffix else p.2))
    (fun c : Column => c.name) acc.columns).symm

theorem coalesce_fold_names (suffix : String) (dfLeft : DataFrame) :
    ∀ (pairs : List (String × String)) (out : DataFrame),
      ((pairs.foldl (coalesceStep suffix dfLeft) out).columns.map
        (fun c => c.name))
        = pairs.foldl
            (fun ns p => ns.filter
              (fun n => n != (if dfLeft.columns.any (fun c => c.name == p.2)
                then p.2 ++ suffix else p.2)))
            (out.columns.map (fun c => c.name))
  | [], out => rfl
  | p :: pairs, out => by
    rw [List.foldl_cons, List.foldl_cons,
      coalesce_fold_names suffix dfLeft pairs (coalesceStep suffix dfLeft out p),
      coalesceStep_names]

/-- Counterexample to C6 as stated: with `coalesce = true` the cache is
taken before coalescing, so the produced frame's names never equal the
cached sequence — already the second produced frame differs from the
cache set by the first. -/
theorem c6_coalesce_breaks_cached_names :
    (finishJoin coalesceOp sampleLeft sampleRight).1.outputNames
        = some ["k", "k_r"] ∧
    ((finishJoin (finishJoin coalesceOp sampleLeft sampleRight).1
        sampleLeft sampleRight).2.columns.map (fun c => c.name)) = ["k"] := by
  constructor
  · decide
  · decide

/-- Claim C6 (amended): once `output_names` is cached, every subsequently
produced frame (streaming and flush both go through `finish_join`) carries
exactly the cached sequence when `coalesce = false`; with
`coalesce = true` it carries the cached sequence with the coalesced
right-key columns (suffixed on collision with the left frame) removed,
and the cache itself never changes. -/
theorem c6_cached_names_stable (op : Operator) (ldf rdf : DataFrame)
    (names : List String)
    (hcached : op.outputNames = some names)
    (hlen : ldf.columns.length + rdf.columns.length = names.length) :
    (finishJoin op ldf rdf).1.outputNames = some names ∧
    (finishJoin op ldf rdf).2.columns.map (fun c => c.name)
      = (if op.coalesce then
          (op.keyNamesLeft.zip op.keyNamesRight).foldl
            (fun ns p => ns.filter
              (fun n => n != (if ldf.columns.any (fun c => c.name == p.2)
                then p.2 ++ op.suffix else p.2)))
            names
        else names) := by
  have hinner := innerFinish_cached ldf rdf op.suffix op.swapped names hlen
  have h1 : (finishJoin op ldf rdf).1.outputNames
      = (innerFinish ldf rdf op.suffix op.swapped op.outputNames).2 := rfl
  have h2 : (finishJoin op ldf rdf).2
      = (if op.coalesce then
          coalesceFullJoin
            (innerFinish ldf rdf op.suffix op.swapped op.outputNames).1
            op.keyNamesLeft op.keyNamesRight op.suffix ldf
        else (innerFinish ldf rdf op.suffix op.swapped op.outputNames).1) := rfl
  constructor
  · rw [h1, hcached, hinner.2]
  · rw [h2, hcached]
    cases hco : op.coalesce with
    | false =>
      simp only [Bool.false_eq_true, if_false]
      exact hinner.1
    | true =>
      simp only [if_true]
      unfold coalesceFullJoin
      rw [coalesce_fold_names op.suffix ldf
        (op.keyNamesLeft.zip op.keyNamesRight)
        (innerFinish ldf rdf op.suffix op.swapped (some names)).1,
        hinner.1]

/-- Witness for C6 (amended): a non-coalescing operator with cached names
reproduces them on the next frame. -/
theorem c6_cached_names_stable_witness :
    (finishJoin cachedOp sampleLeft sampleRight).1.outputNames
        = some ["k", "k_r"] ∧
    ((finishJoin cachedOp sampleLeft sampleRight).2.columns.map
      (fun c => c.name)) = ["k", "k_r"] := by
  have h := c6_cached_names_stable cachedOp sampleLeft sampleRight
    ["k", "k_r"] rfl rfl
  exact ⟨h.1, h.2.trans (by decide)⟩

/-! ### Claim C7 -/

/-- Claim C7: flush pairs the gathered unmatched left rows with a right
frame shaped exactly like `flush_dummy_right` (same names, dtypes, order),
of the gathered height, with every value null; the flush output carries
chunk identifier `0` while `execute` passes the input chunk's identifier
through. -/
theorem c7_flush_null_right_and_chunk_ids (dummy : DataFrame) (size : Nat)
    (op : Operator) (chunk : DataChunk) (rows : List (Option (List Nat)))
    (hm : mustFlush op = true) :
    ((flushRightFrame dummy size).columns.map (fun c => c.name)
        = dummy.columns.map (fun c => c.name)) ∧
    ((flushRightFrame dummy size).columns.map (fun c => c.dtype)
        = dummy.columns.map (fun c => c.dtype)) ∧
    (flushRightFrame dummy size).height = size ∧
    (∀ c ∈ (flushRightFrame dummy size).columns, ∀ v ∈ c.values, v = none) ∧
    ((executeFlush op).map (fun r => r.2.chunkIndex) = some 0) ∧
    (executeOuter op chunk rows).2.chunkIndex = chunk.chunkIndex := by
  refine ⟨?_, ?_, rfl, ?_, ?_, rfl⟩
  · rw [show (flushRightFrame dummy size).columns
        = dummy.columns.map (fun c => Column.fullNull c.name c.dtype size)
      from rfl, List.map_map]
    rfl
  · rw [show (flushRightFrame dummy size).columns
        = dummy.columns.map (fun c => Column.fullNull c.name c.dtype size)
      from rfl, List.map_map]
    rfl
  · intro c hc v hv
    obtain ⟨c0, _, hc0⟩ := List.mem_map.mp hc
    rw [← hc0] at hv
    exact (List.mem_replicate.mp hv).2
  · cases hd : op.dfBFlushDummy with
    | none => rw [mustFlush, hd] at hm; exact absurd hm (by simp)
    | some d =>
      unfold executeFlush
      rw [hd]
      rfl

/-- Witness for C7 at a streamed operator. -/
theorem c7_flush_null_right_and_chunk_ids_witness :
    (executeFlush streamedOp).map (fun r => r.2.chunkIndex) = some 0 :=
  (c7_flush_null_right_and_chunk_ids ⟨0, []⟩ 0 streamedOp sampleChunk []
    rfl).2.2.2.2.1

end GenericProbeOuter
